import Mathlib

/-!
Verification development for the appwrite-ctl migration tool.

The definitions below are a shallow embedding of the TypeScript sources:

* discovery and numeric sorting of version directories
  (`runMigrations`, discovery section of `src/lib/runner.ts`);
* the per-version orchestration pipeline of `runMigrations`
  (skip-if-applied, backup hook, schema push, attribute polling,
  script execution, state recording);
* the `pushSnapshot` adapter of `src/lib/cli.ts` (backup / restore of the
  project-root `appwrite.config.json`);
* the attribute-availability poller `waitForAttributes`.

Remote calls, subprocess executions and dynamically loaded migration
modules are modelled by explicit oracles (per-version outcome flags,
per-table query-result lists), and the runner is modelled as a pure
function from those oracles to the list of observable events it performs.
-/

namespace AppwriteCtl

/-! ## JS `parseInt` and the version-directory comparator

`runMigrations` sorts the version directory names with
`parseInt(a.substring(1)) - parseInt(b.substring(1))`.  `parseInt` skips
leading whitespace, accepts an optional sign, and parses the longest
leading run of decimal digits; it yields `NaN` (here `none`) when no digit
is found.
-/

/-- Numeric value of a list of decimal digit characters. -/
def digitsToNat (ds : List Char) : Nat :=
  ds.foldl (fun acc c => acc * 10 + (c.toNat - 48)) 0

/-- Parse the longest leading run of decimal digits; `none` models `NaN`. -/
def jsParseIntFrom (cs : List Char) : Option Int :=
  let ds := cs.takeWhile Char.isDigit
  if ds.isEmpty then none else some (Int.ofNat (digitsToNat ds))

/-- Model of JavaScript `parseInt(s)` (radix 10): skip leading whitespace,
optional sign, longest digit run; `none` models `NaN`. -/
def jsParseInt (cs : List Char) : Option Int :=
  let cs := cs.dropWhile (fun c => c == ' ' || c == '\t' || c == '\n' || c == '\r')
  match cs with
  | '-' :: rest => (jsParseIntFrom rest).map Int.neg
  | '+' :: rest => jsParseIntFrom rest
  | _ => jsParseIntFrom cs

/-- `parseInt(name.substring(1))`: the sequence-number key of a version
directory name. -/
def seqKey (name : String) : Option Int :=
  jsParseInt (name.data.drop 1)

/-- The JS comparator `parseInt(a.substring(1)) - parseInt(b.substring(1))`:
`none` models a `NaN` comparison result (either side failed to parse). -/
def seqCompare (a b : String) : Option Int :=
  match seqKey a, seqKey b with
  | some x, some y => some (x - y)
  | _, _ => none

/-- Boolean ordering used by the sort model: comparator result `≤ 0`.
A `NaN` comparator result gives the engine no reordering instruction; the
model keeps the relative order in that case (`true`). -/
def jsLe (a b : String) : Bool :=
  match seqCompare a b with
  | some r => decide (r ≤ 0)
  | none => true

/-- Model of `startsWith('v')`: first character comparison. -/
def startsWithChar (c : Char) (s : String) : Bool :=
  match s.data with
  | [] => false
  | d :: _ => d == c

/-! ## Discovery

`runMigrations` lists the migrations directory, keeps entries that start
with `v` and are directories, and sorts by the numeric comparator.  The
sort is modelled as an insertion sort with respect to `jsLe`; for the
comparator results that are defined and consistent this yields the JS
sorted order, and it is in every case a permutation of its input.
-/

/-- A directory entry of the migrations root: its name and whether
`statSync(...).isDirectory()` holds. -/
structure DirEntry where
  name : String
  isDir : Bool
  deriving DecidableEq, Repr

/-- Insert one name into an already-sorted list of names. -/
def insertVersion (x : String) : List String → List String
  | [] => [x]
  | y :: ys => if jsLe x y then x :: y :: ys else y :: insertVersion x ys

/-- Sort version-directory names with the JS numeric comparator. -/
def sortVersionNames : List String → List String
  | [] => []
  | x :: xs => insertVersion x (sortVersionNames xs)

/-- Discovery: `readdirSync(...).filter(dir => dir.startsWith('v') &&
statSync(...).isDirectory()).sort(numeric comparator)`. -/
def discoverVersions (entries : List DirEntry) : List String :=
  sortVersionNames ((entries.filter (fun e => startsWithChar 'v' e.name && e.isDir)).map DirEntry.name)

theorem insertVersion_perm (x : String) (l : List String) :
    (insertVersion x l).Perm (x :: l) := by
  induction l with
  | nil => exact List.Perm.refl _
  | cons y ys ih =>
    unfold insertVersion
    by_cases h : jsLe x y
    · simp [h]
    · simp only [h, if_false, Bool.false_eq_true]
      exact List.Perm.trans (List.Perm.cons y ih) (List.Perm.swap x y ys)

theorem sortVersionNames_perm (l : List String) :
    (sortVersionNames l).Perm l := by
  induction l with
  | nil => exact List.Perm.refl _
  | cons x xs ih =>
    unfold sortVersionNames
    exact List.Perm.trans (insertVersion_perm x (sortVersionNames xs)) (List.Perm.cons x ih)

/-! ## The migration runner (orchestrator)

`runMigrations` iterates over the discovered version directories.  For
each version it: checks for an `index.ts`/`index.js` (skip with a warning
if absent); loads the module with jiti (`process.exit(1)` on a load
error); validates the default export and its `id`
(`if (!migration || !migration.id) ... process.exit(1)`); skips the
version when its `id` is in the applied set fetched once at the start;
otherwise runs the pipeline: backup hook, schema push, attribute polling,
`up` execution, `recordMigration`.  Every fatal condition is
`process.exit(1)`, modelled as a `halt` outcome that stops the whole run.

The observable behaviour of a run is a list of events; remote and
subprocess outcomes are oracle flags in `VersionInfo`.
-/

/-- The shape of a loaded migration definition that the runner inspects.
`id = ""` models a missing or falsy `id` (the code only tests
`!migration.id`).  `hasUp` records whether the loaded object provides an
`up` function (the code guards `if (migration.up)`); `description` and
`down` do not influence the runner and are omitted. -/
structure Migration where
  id : String
  requiresBackup : Bool
  hasUp : Bool
  deriving DecidableEq, Repr

/-- Per-version oracle: what the filesystem, the module loader and the
external world answer for this version directory. -/
structure VersionInfo where
  /-- an `index.ts` or `index.js` exists in the version directory -/
  hasIndex : Bool
  /-- `jiti.import` throws -/
  loadThrows : Bool
  /-- the default export (`none` models a missing or falsy export) -/
  defaultExport : Option Migration
  /-- the version directory contains `appwrite.config.json` -/
  hasSnapshot : Bool
  /-- the configured backup command exits non-zero when invoked -/
  backupFails : Bool
  /-- `pushSnapshot` throws when invoked -/
  pushFails : Bool
  /-- `migration.up(context)` throws when invoked -/
  upFails : Bool
  /-- `recordMigration` throws when invoked -/
  recordFails : Bool
  deriving DecidableEq, Repr

/-- Runner configuration relevant to the pipeline. -/
structure RunConfig where
  backupCommand : Option String
  deriving DecidableEq, Repr

/-- Observable events of a run, in program order. -/
inductive Ev where
  | skipNoIndex (version : String)
  | loadFailed (version : String)
  | invalidMigration (version : String)
  | skipApplied (version : String) (id : String)
  | backupRun (version : String)
  | backupFailed (version : String)
  | backupWarn (version : String)
  | pushStart (version : String)
  | pushFailed (version : String)
  | skipPush (version : String)
  | poll (version : String)
  | upInvoke (version : String) (id : String)
  | upFailed (version : String)
  | record (id : String) (version : String)
  | recordFailed (version : String)
  deriving DecidableEq, Repr

/-- Result of processing one version: `halt` models `process.exit(1)`
(or an uncaught rejection), `next r` continues with `r` the id recorded
for this version, if any. -/
inductive StepRes where
  | halt
  | next (recorded : Option String)
  deriving DecidableEq, Repr

/-- Sequence a stage (events, succeeded?) with the rest of the pipeline:
on stage failure the run halts with the events so far. -/
def thenB (s : List Ev × Bool) (k : List Ev × StepRes) : List Ev × StepRes :=
  if s.2 then (s.1 ++ k.1, k.2) else (s.1, StepRes.halt)

/-- Stage 3, backup hook: `if (requiresBackup && backupCommand)` execute
the command, non-zero exit is fatal; `else if (requiresBackup)` warn and
proceed. -/
def backupStage (cfg : RunConfig) (mig : Migration) (n : String) (vi : VersionInfo) :
    List Ev × Bool :=
  if mig.requiresBackup && cfg.backupCommand.isSome then
    if vi.backupFails then ([Ev.backupRun n, Ev.backupFailed n], false)
    else ([Ev.backupRun n], true)
  else if mig.requiresBackup then ([Ev.backupWarn n], true)
  else ([], true)

/-- Stage 4, schema push: when the version has a snapshot, call
`pushSnapshot`; a throw is fatal.  Without a snapshot, warn and skip. -/
def pushStage (n : String) (vi : VersionInfo) : List Ev × Bool :=
  if vi.hasSnapshot then
    if vi.pushFails then ([Ev.pushStart n, Ev.pushFailed n], false)
    else ([Ev.pushStart n], true)
  else ([Ev.skipPush n], true)

/-- Stage 5, attribute polling: only when a snapshot exists.
`waitForAttributes` never throws into the runner. -/
def pollStage (n : String) (vi : VersionInfo) : List Ev × Bool :=
  if vi.hasSnapshot then ([Ev.poll n], true) else ([], true)

/-- Stage 6, script execution: `if (migration.up)` invoke it with the
fresh per-version context; a throw is fatal. -/
def upStage (mig : Migration) (n : String) (vi : VersionInfo) : List Ev × Bool :=
  if mig.hasUp then
    if vi.upFails then ([Ev.upInvoke n mig.id, Ev.upFailed n], false)
    else ([Ev.upInvoke n mig.id], true)
  else ([], true)

/-- Stage 7, finalization: `recordMigration(databases, config, id, version)`;
a throw aborts the run, otherwise the id is recorded. -/
def recordStage (mig : Migration) (n : String) (vi : VersionInfo) : List Ev × StepRes :=
  if vi.recordFails then ([Ev.recordFailed n], StepRes.halt)
  else ([Ev.record mig.id n], StepRes.next (some mig.id))

/-- Stages 3-7 for a pending version. -/
def pipeline (cfg : RunConfig) (mig : Migration) (n : String) (vi : VersionInfo) :
    List Ev × StepRes :=
  thenB (backupStage cfg mig n vi)
    (thenB (pushStage n vi)
      (thenB (pollStage n vi)
        (thenB (upStage mig n vi) (recordStage mig n vi))))

/-- Processing of one version directory inside the `for` loop of
`runMigrations`. -/
def runVersion (cfg : RunConfig) (applied : List String) (n : String) (vi : VersionInfo) :
    List Ev × StepRes :=
  if vi.hasIndex then
    if vi.loadThrows then ([Ev.loadFailed n], StepRes.halt)
    else
      match vi.defaultExport with
      | none => ([Ev.invalidMigration n], StepRes.halt)
      | some mig =>
        if mig.id = "" then ([Ev.invalidMigration n], StepRes.halt)
        else if mig.id ∈ applied then ([Ev.skipApplied n mig.id], StepRes.next none)
        else pipeline cfg mig n vi
  else ([Ev.skipNoIndex n], StepRes.next none)

/-- The runner loop over the (already discovered and sorted) version
names.  Returns the events, whether the run completed without
`process.exit(1)`, and the ids recorded, in order.  The applied set is
the one fetched before the loop and is never extended during the run. -/
def runVersions (cfg : RunConfig) (applied : List String) (info : String → VersionInfo) :
    List String → List Ev × Bool × List String
  | [] => ([], true, [])
  | n :: rest =>
    match runVersion cfg applied n (info n) with
    | (evs, StepRes.halt) => (evs, false, [])
    | (evs, StepRes.next r) =>
      let res := runVersions cfg applied info rest
      (evs ++ res.1, res.2.1, r.toList ++ res.2.2)

/-- `runMigrations`: discovery, a single fetch of the applied ids
(`getAppliedMigrations`, modelled by `store`), then the version loop. -/
def runMigrations (cfg : RunConfig) (store : List String) (entries : List DirEntry)
    (info : String → VersionInfo) : List Ev × Bool × List String :=
  runVersions cfg store info (discoverVersions entries)

/-- Is the event an `up` invocation? -/
def isUpEv : Ev → Bool
  | Ev.upInvoke _ _ => true
  | _ => false

/-- Is the event a successful record write? -/
def isRecordEv : Ev → Bool
  | Ev.record _ _ => true
  | _ => false

/-- Is the event one of the two skip outcomes? -/
def isSkipEv : Ev → Bool
  | Ev.skipNoIndex _ => true
  | Ev.skipApplied _ _ => true
  | _ => false

/-- Is the event part of the schema-push stage (push attempted or
explicitly skipped)? -/
def isPushStageEv : Ev → Bool
  | Ev.pushStart _ => true
  | Ev.skipPush _ => true
  | _ => false

/-- Is the event an `up` invocation carrying the given migration id? -/
def isUpIdEv (x : String) : Ev → Bool
  | Ev.upInvoke _ i => i == x
  | _ => false

/-- Number of `up` invocations carrying the given migration id. -/
def countUpId (evs : List Ev) (x : String) : Nat :=
  (evs.filter (isUpIdEv x)).length

/-! ## The attribute-availability poller

`waitForAttributes` parses the snapshot and, for every table, loops on
`databases.listAttributes(databaseId, collectionId)` until no attribute
has `status !== 'available'`, sleeping 2000 ms between checks.  A table
with a falsy `databaseId` is skipped with a warning.  A query error with
`code === 500` force-exits the loop for that table; any other error warns
and retries after the same 2000 ms sleep.

The remote answers for a table are an oracle list of `QueryRes`; the
result is `none` when that list is exhausted before the loop exits
(modelling a loop that is still waiting).
-/

/-- One answer of `databases.listAttributes`: the attribute status list,
or a thrown error with its `code`. -/
inductive QueryRes where
  | ok (statuses : List String)
  | err (code : Int)
  deriving DecidableEq, Repr

/-- A table entry of the snapshot (`tables[]`): its `$id`, display name
and `databaseId`. -/
structure TableEntry where
  id : String
  name : String
  databaseId : Option String
  deriving DecidableEq, Repr

/-- `!databaseId` in JS: missing or empty string is falsy. -/
def resolvableDb : Option String → Bool
  | none => false
  | some s => !(s = "")

/-- Poller events. -/
inductive WEv where
  | warnNoDb (tableId : String)
  | tquery (tableId : String)
  | tsleep (tableId : String) (ms : Nat)
  | twarn500 (tableId : String)
  | twarnRetry (tableId : String)
  deriving DecidableEq, Repr

/-- The attributes still pending: `attributes.filter(a => a.status !== 'available')`. -/
def pendingOf (statuses : List String) : List String :=
  statuses.filter (fun s => !(s = ("available")))

/-- The `while (!allAvailable)` loop for one table, driven by the oracle
of remote answers. -/
def pollTable (tid : String) : List QueryRes → Option (List WEv)
  | [] => none
  | QueryRes.ok sts :: rest =>
    if pendingOf sts = [] then some [WEv.tquery tid]
    else
      match pollTable tid rest with
      | none => none
      | some evs => some (WEv.tquery tid :: WEv.tsleep tid 2000 :: evs)
  | QueryRes.err c :: rest =>
    if c = 500 then some [WEv.tquery tid, WEv.twarn500 tid]
    else
      match pollTable tid rest with
      | none => none
      | some evs => some (WEv.tquery tid :: WEv.twarnRetry tid :: WEv.tsleep tid 2000 :: evs)

/-- `waitForAttributes` over the tables of a parsed snapshot, each table
paired with its oracle of remote answers. -/
def waitForAttributes : List (TableEntry × List QueryRes) → Option (List WEv)
  | [] => some []
  | (t, oracle) :: rest =>
    if resolvableDb t.databaseId then
      match pollTable t.id oracle with
      | none => none
      | some evs =>
        match waitForAttributes rest with
        | none => none
        | some evs2 => some (evs ++ evs2)
    else
      match waitForAttributes rest with
      | none => none
      | some evs2 => some (WEv.warnNoDb t.id :: evs2)

/-- Is the event a sleep? -/
def isSleepEv : WEv → Bool
  | WEv.tsleep _ _ => true
  | _ => false

/-- Number of sleeps in a poller event list. -/
def countSleep (evs : List WEv) : Nat :=
  (evs.filter isSleepEv).length

/-! ## The `pushSnapshot` adapter

`pushSnapshot(snapshotPath, config)`: requires the snapshot to exist;
copies the project-root `appwrite.config.json` to
`appwrite.config.json.bak` when the root file exists; parses the
snapshot, rewrites its `projectId` and writes it over the root file; then
pushes each resource category, failing on the first category error.  The
`catch` restores the root file from the backup on failure, and the
`finally` restores the root file and deletes the backup (or deletes the
root file it created, when none existed before).

Note that the parse/rewrite/write of the snapshot happens after the
backup copy but before the `try`/`finally`, so a parse throw leaves the
backup file behind.

File contents are abstract strings compared for byte identity.
`rewrite` models `JSON.parse` + `projectId` assignment + `JSON.stringify`
(`none` = `JSON.parse` throws); `pushOk` models the per-resource exit
status of `appwrite push <resource> --all --force`.
-/

/-- The filesystem locations `pushSnapshot` touches: the project-root
working snapshot, its `.bak` backup, and the version snapshot file. -/
structure SnapshotFS where
  root : Option String
  bak : Option String
  snap : Option String
  deriving DecidableEq, Repr

/-- The resource categories pushed, in order. -/
def pushResources : List String := ["tables", "buckets", "teams", "topics"]

/-- The push loop: true iff every category push exits zero (the loop
rethrows on the first failure). -/
def pushForAll (pushOk : String → Bool) : List String → Bool
  | [] => true
  | r :: rest => if pushOk r then pushForAll pushOk rest else false

/-- `pushSnapshot`: returns whether the call succeeded and the final
state of the three file locations. -/
def pushSnapshot (rewrite : String → Option String) (pushOk : String → Bool)
    (fs : SnapshotFS) : Bool × SnapshotFS :=
  match fs.snap with
  | none => (false, fs)
  | some snapContent =>
    let originalExists := fs.root.isSome
    let fs1 := if originalExists then { fs with bak := fs.root } else fs
    match rewrite snapContent with
    | none => (false, fs1)
    | some newContent =>
      let fs2 := { fs1 with root := some newContent }
      let ok := pushForAll pushOk pushResources
      let fs3 :=
        if ok then fs2
        else if originalExists && fs2.bak.isSome then { fs2 with root := fs2.bak }
        else fs2
      let fs4 :=
        if originalExists then
          if fs3.bak.isSome then { fs3 with root := fs3.bak, bak := none } else fs3
        else if fs3.root.isSome then { fs3 with root := none }
        else fs3
      (ok, fs4)

/-! ## Helper lemmas about the runner -/

theorem thenB_snd (s : List Ev × Bool) (k : List Ev × StepRes) :
    (thenB s k).2 = if s.2 then k.2 else StepRes.halt := by
  unfold thenB
  split_ifs <;> rfl

theorem thenB_fst (s : List Ev × Bool) (k : List Ev × StepRes) :
    (thenB s k).1 = if s.2 then s.1 ++ k.1 else s.1 := by
  unfold thenB
  split_ifs <;> rfl

theorem pipeline_next_eq (cfg : RunConfig) (mig : Migration) (n : String) (vi : VersionInfo)
    (evs : List Ev) (r : Option String)
    (h : pipeline cfg mig n vi = (evs, StepRes.next r)) : r = some mig.id := by
  have h2 : (pipeline cfg mig n vi).2 = StepRes.next r := by rw [h]
  unfold pipeline at h2
  simp only [thenB_snd] at h2
  unfold recordStage at h2
  split_ifs at h2
  all_goals simp_all

theorem runVersion_pending (cfg : RunConfig) (applied : List String) (n : String)
    (vi : VersionInfo) (mig : Migration)
    (hidx : vi.hasIndex = true) (hld : vi.loadThrows = false)
    (hexp : vi.defaultExport = some mig) (hid : mig.id ≠ "") (happ : mig.id ∉ applied) :
    runVersion cfg applied n vi = pipeline cfg mig n vi := by
  unfold runVersion
  simp [hidx, hld, hexp, hid, happ]

theorem runVersion_mono (cfg : RunConfig) (n : String) (vi : VersionInfo)
    (applied S : List String) (evs : List Ev) (r : Option String)
    (hS : ∀ i ∈ applied, i ∈ S)
    (h : runVersion cfg applied n vi = (evs, StepRes.next r))
    (hr : ∀ i, r = some i → i ∈ S) :
    ∃ evs2, runVersion cfg S n vi = (evs2, StepRes.next none) ∧
      ∀ e ∈ evs2, isSkipEv e = true := by
  unfold runVersion at h ⊢
  by_cases h1 : vi.hasIndex
  · simp only [h1, if_true] at h ⊢
    by_cases h2 : vi.loadThrows
    · simp [h2] at h
    · simp only [h2, Bool.false_eq_true, if_false] at h ⊢
      cases hm : vi.defaultExport with
      | none => simp [hm] at h
      | some mig =>
        simp only [hm] at h ⊢
        by_cases hid : mig.id = ""
        · simp [hid] at h
        · simp only [hid, if_false] at h ⊢
          by_cases happ : mig.id ∈ applied
          · simp only [happ, if_true] at h
            have hmem : mig.id ∈ S := hS _ happ
            simp only [hmem, if_true]
            refine ⟨[Ev.skipApplied n mig.id], rfl, ?_⟩
            intro e he
            simp only [List.mem_singleton] at he
            subst he
            rfl
          · simp only [happ, if_false] at h
            have hrid : r = some mig.id := pipeline_next_eq _ _ _ _ _ _ h
            have hmem : mig.id ∈ S := hr _ hrid
            simp only [hmem, if_true]
            refine ⟨[Ev.skipApplied n mig.id], rfl, ?_⟩
            intro e he
            simp only [List.mem_singleton] at he
            subst he
            rfl
  · simp only [h1, if_false] at h ⊢
    refine ⟨[Ev.skipNoIndex n], rfl, ?_⟩
    intro e he
    simp only [List.mem_singleton] at he
    subst he
    rfl

theorem runVersions_idem (cfg : RunConfig) (info : String → VersionInfo) :
    ∀ (dirs : List String) (applied S : List String) (evs : List Ev) (recs : List String),
      runVersions cfg applied info dirs = (evs, true, recs) →
      (∀ i ∈ applied, i ∈ S) → (∀ i ∈ recs, i ∈ S) →
      ∃ evs2, runVersions cfg S info dirs = (evs2, true, []) ∧
        ∀ e ∈ evs2, isSkipEv e = true := by
  intro dirs
  induction dirs with
  | nil =>
    intro applied S evs recs _ _ _
    exact ⟨[], rfl, by intro e he; simp at he⟩
  | cons n rest ih =>
    intro applied S evs recs h hS hrecs
    cases hv : runVersion cfg applied n (info n) with
    | mk evh sr =>
      unfold runVersions at h
      rw [hv] at h
      cases sr with
      | halt => simp at h
      | next r =>
        cases hres : runVersions cfg applied info rest with
        | mk evt tail =>
          cases tail with
          | mk okt recst =>
            rw [hres] at h
            simp only [Prod.mk.injEq] at h
            obtain ⟨hev, hok, hrec⟩ := h
            subst hok
            have hrecsub : ∀ i ∈ recst, i ∈ S := by
              intro i hi
              exact hrecs i (by rw [← hrec]; exact List.mem_append_right _ hi)
            have hrS : ∀ i, r = some i → i ∈ S := by
              intro i hi
              refine hrecs i ?_
              rw [← hrec, hi]
              exact List.mem_append_left _ (by simp)
            obtain ⟨evs2h, hrun2, hskip2⟩ := runVersion_mono cfg n (info n) applied S evh r hS hv hrS
            obtain ⟨evs2t, hrun2t, hskip2t⟩ := ih applied S evt recst hres hS hrecsub
            refine ⟨evs2h ++ evs2t, ?_, ?_⟩
            · unfold runVersions
              rw [hrun2, hrun2t]
              rfl
            · intro e he
              rcases List.mem_append.mp he with h1 | h2
              · exact hskip2 e h1
              · exact hskip2t e h2

/-- A skip event is neither an `up` invocation nor a record write. -/
theorem isSkipEv_not_up_record (e : Ev) (h : isSkipEv e = true) :
    isUpEv e = false ∧ isRecordEv e = false := by
  cases e <;> simp_all [isSkipEv, isUpEv, isRecordEv]

theorem thenB_of_true (s : List Ev × Bool) (k : List Ev × StepRes) (h : s.2 = true) :
    thenB s k = (s.1 ++ k.1, k.2) := by
  unfold thenB
  simp [h]

theorem pollStage_snd (n : String) (vi : VersionInfo) : (pollStage n vi).2 = true := by
  unfold pollStage
  split_ifs <;> rfl

theorem backupStage_ok (cfg : RunConfig) (mig : Migration) (n : String) (vi : VersionInfo)
    (hb : mig.requiresBackup = true → cfg.backupCommand.isSome = true → vi.backupFails = false) :
    (backupStage cfg mig n vi).2 = true := by
  unfold backupStage
  split_ifs with h1 h2 <;> simp_all [Bool.and_eq_true]

theorem pushStage_ok (n : String) (vi : VersionInfo)
    (hp : vi.hasSnapshot = true → vi.pushFails = false) :
    (pushStage n vi).2 = true := by
  unfold pushStage
  split_ifs <;> simp_all

theorem upStage_eq (mig : Migration) (n : String) (vi : VersionInfo)
    (hu : mig.hasUp = true) (huf : vi.upFails = false) :
    upStage mig n vi = ([Ev.upInvoke n mig.id], true) := by
  unfold upStage
  simp [hu, huf]

theorem backupStage_events (x : String) (cfg : RunConfig) (mig : Migration) (n : String)
    (vi : VersionInfo) :
    ∀ e ∈ (backupStage cfg mig n vi).1,
      isUpEv e = false ∧ isRecordEv e = false ∧ isUpIdEv x e = false := by
  unfold backupStage
  split_ifs <;> simp [isUpEv, isRecordEv, isUpIdEv]

theorem pushStage_events (x : String) (n : String) (vi : VersionInfo) :
    ∀ e ∈ (pushStage n vi).1,
      isUpEv e = false ∧ isRecordEv e = false ∧ isUpIdEv x e = false := by
  unfold pushStage
  split_ifs <;> simp [isUpEv, isRecordEv, isUpIdEv]

theorem pollStage_events (x : String) (n : String) (vi : VersionInfo) :
    ∀ e ∈ (pollStage n vi).1,
      isUpEv e = false ∧ isRecordEv e = false ∧ isUpIdEv x e = false := by
  unfold pollStage
  split_ifs <;> simp [isUpEv, isRecordEv, isUpIdEv]

theorem pushStage_has_push_ev (n : String) (vi : VersionInfo) :
    ∃ e ∈ (pushStage n vi).1, isPushStageEv e = true := by
  unfold pushStage
  split_ifs
  · exact ⟨Ev.pushStart n, by simp, rfl⟩
  · exact ⟨Ev.pushStart n, by simp, rfl⟩
  · exact ⟨Ev.skipPush n, by simp, rfl⟩

/-- When every stage of the pipeline succeeds, the events are the four
stage event lists followed by the record write, and the migration id is
recorded. -/
theorem pipeline_success_parts (cfg : RunConfig) (mig : Migration) (n : String) (vi : VersionInfo)
    (hb2 : (backupStage cfg mig n vi).2 = true)
    (hp2 : (pushStage n vi).2 = true)
    (hu2 : (upStage mig n vi).2 = true)
    (hrf : vi.recordFails = false) :
    pipeline cfg mig n vi =
      ((backupStage cfg mig n vi).1 ++ (pushStage n vi).1 ++ (pollStage n vi).1 ++
        (upStage mig n vi).1 ++ [Ev.record mig.id n], StepRes.next (some mig.id)) := by
  unfold pipeline
  rw [thenB_of_true _ _ hu2, thenB_of_true _ _ (pollStage_snd n vi), thenB_of_true _ _ hp2,
    thenB_of_true _ _ hb2]
  unfold recordStage
  simp [hrf, List.append_assoc]

theorem countUpId_append (l1 l2 : List Ev) (x : String) :
    countUpId (l1 ++ l2) x = countUpId l1 x + countUpId l2 x := by
  unfold countUpId
  simp [List.filter_append]

theorem countUpId_no_up (l : List Ev) (x : String)
    (h : ∀ e ∈ l, isUpIdEv x e = false) : countUpId l x = 0 := by
  unfold countUpId
  simp only [List.length_eq_zero]
  exact List.filter_eq_nil_iff.mpr (by intro e he; simp [h e he])

/-- A version whose definition (with `id = X`) passes every stage produces
exactly one `up` invocation for `X` and continues with `X` recorded. -/
theorem runVersion_records_with_one_up (cfg : RunConfig) (applied : List String) (n : String)
    (vi : VersionInfo) (mig : Migration) (X : String)
    (hidx : vi.hasIndex = true) (hld : vi.loadThrows = false)
    (hexp : vi.defaultExport = some mig)
    (hx : mig.id = X) (hX : X ≠ "") (happ : X ∉ applied)
    (hb : mig.requiresBackup = true → cfg.backupCommand.isSome = true → vi.backupFails = false)
    (hp : vi.hasSnapshot = true → vi.pushFails = false)
    (hu : mig.hasUp = true) (huf : vi.upFails = false) (hrf : vi.recordFails = false) :
    ∃ evs, runVersion cfg applied n vi = (evs, StepRes.next (some X)) ∧
      countUpId evs X = 1 := by
  subst hx
  rw [runVersion_pending cfg applied n vi mig hidx hld hexp hX happ,
    pipeline_success_parts cfg mig n vi (backupStage_ok cfg mig n vi hb) (pushStage_ok n vi hp)
      (by rw [upStage_eq mig n vi hu huf]) hrf,
    upStage_eq mig n vi hu huf]
  refine ⟨_, rfl, ?_⟩
  simp only [countUpId_append]
  rw [countUpId_no_up _ _ (fun e he => (backupStage_events mig.id cfg mig n vi e he).2.2),
    countUpId_no_up _ _ (fun e he => (pushStage_events mig.id n vi e he).2.2),
    countUpId_no_up _ _ (fun e he => (pollStage_events mig.id n vi e he).2.2)]
  unfold countUpId isUpIdEv
  simp

/-! ## Concrete oracle values used by the witnesses -/

/-- A version directory whose migration (id `A`) is fully runnable:
index present, module loads, no snapshot, no backup requirement, every
external outcome succeeds. -/
def viA : VersionInfo :=
  { hasIndex := true, loadThrows := false,
    defaultExport := some { id := "A", requiresBackup := false, hasUp := true },
    hasSnapshot := false, backupFails := false, pushFails := false, upFails := false,
    recordFails := false }

/-- Like `viA` but the loaded default export has no `up` function. -/
def viNoUp : VersionInfo :=
  { hasIndex := true, loadThrows := false,
    defaultExport := some { id := "A", requiresBackup := false, hasUp := false },
    hasSnapshot := false, backupFails := false, pushFails := false, upFails := false,
    recordFails := false }

/-- Like `viA` but the module has no default export. -/
def viNoExport : VersionInfo :=
  { hasIndex := true, loadThrows := false, defaultExport := none,
    hasSnapshot := false, backupFails := false, pushFails := false, upFails := false,
    recordFails := false }

/-- Like `viA` but the migration requires a backup. -/
def viBackup : VersionInfo :=
  { hasIndex := true, loadThrows := false,
    defaultExport := some { id := "A", requiresBackup := true, hasUp := true },
    hasSnapshot := false, backupFails := false, pushFails := false, upFails := false,
    recordFails := false }

/-- Like `viBackup` but the backup command exits non-zero. -/
def viBackupFail : VersionInfo :=
  { hasIndex := true, loadThrows := false,
    defaultExport := some { id := "A", requiresBackup := true, hasUp := true },
    hasSnapshot := true, backupFails := true, pushFails := false, upFails := false,
    recordFails := false }

/-- A fully runnable version whose migration id is `X`. -/
def viX : VersionInfo :=
  { hasIndex := true, loadThrows := false,
    defaultExport := some { id := "X", requiresBackup := false, hasUp := true },
    hasSnapshot := false, backupFails := false, pushFails := false, upFails := false,
    recordFails := false }

/-! ## Claims about the orchestrator -/

/-- Claim C1: a version whose loaded definition id is already in the
applied-identifier set fetched at the start of the run is skipped without
invoking its `up` action and without writing any applied record; and a
second run over an unchanged, fully-applied version set (one whose first
run completed, fetching afterwards the first run's applied set) invokes
no `up` action and writes no record. -/
theorem skip_applied_idempotent :
    (∀ (cfg : RunConfig) (applied : List String) (n : String) (vi : VersionInfo)
        (mig : Migration),
        vi.hasIndex = true → vi.loadThrows = false → vi.defaultExport = some mig →
        mig.id ≠ "" → mig.id ∈ applied →
        runVersion cfg applied n vi = ([Ev.skipApplied n mig.id], StepRes.next none)) ∧
    (∀ (cfg : RunConfig) (store : List String) (entries : List DirEntry)
        (info : String → VersionInfo) (evs : List Ev) (recs : List String),
        runMigrations cfg store entries info = (evs, true, recs) →
        ∃ evs2, runMigrations cfg (store ++ recs) entries info = (evs2, true, []) ∧
          ∀ e ∈ evs2, isUpEv e = false ∧ isRecordEv e = false) := by
  constructor
  · intro cfg applied n vi mig hidx hld hexp hid happ
    unfold runVersion
    simp [hidx, hld, hexp, hid, happ]
  · intro cfg store entries info evs recs h
    obtain ⟨evs2, h2, hskip⟩ := runVersions_idem cfg info (discoverVersions entries) store
      (store ++ recs) evs recs h (fun i hi => List.mem_append_left _ hi)
      (fun i hi => List.mem_append_right _ hi)
    exact ⟨evs2, h2, fun e he => isSkipEv_not_up_record e (hskip e he)⟩

theorem skip_applied_idempotent_witness :
    runVersion { backupCommand := none } ["A"] ("v1") viA =
      ([Ev.skipApplied ("v1") ("A")], StepRes.next none) ∧
    ∃ evs2, runMigrations { backupCommand := none } (["A"] ++ [])
        [{ name := "v1", isDir := true }] (fun _ => viA) = (evs2, true, []) ∧
      ∀ e ∈ evs2, isUpEv e = false ∧ isRecordEv e = false := by
  constructor
  · exact skip_applied_idempotent.1 { backupCommand := none } ["A"] ("v1") viA
      { id := "A", requiresBackup := false, hasUp := true }
      (by decide) (by decide) (by decide) (by decide) (by decide)
  · exact skip_applied_idempotent.2 { backupCommand := none } ["A"]
      [{ name := "v1", isDir := true }] (fun _ => viA)
      [Ev.skipApplied ("v1") ("A")] [] (by decide)

/-- Claim C6: a pending version with `requiresBackup = true` and no
configured backup command logs a warning and proceeds to the schema-push
stage (it does not abort); one with a configured backup command whose
execution exits non-zero aborts the entire run before any schema push is
attempted. -/
theorem backup_gating :
    (∀ (cfg : RunConfig) (applied : List String) (n : String) (vi : VersionInfo)
        (mig : Migration),
        vi.hasIndex = true → vi.loadThrows = false → vi.defaultExport = some mig →
        mig.id ≠ "" → mig.id ∉ applied →
        mig.requiresBackup = true → cfg.backupCommand = none →
        Ev.backupWarn n ∈ (runVersion cfg applied n vi).1 ∧
        ∃ e ∈ (runVersion cfg applied n vi).1, isPushStageEv e = true) ∧
    (∀ (cfg : RunConfig) (applied : List String) (n : String) (vi : VersionInfo)
        (mig : Migration) (c : String),
        vi.hasIndex = true → vi.loadThrows = false → vi.defaultExport = some mig →
        mig.id ≠ "" → mig.id ∉ applied →
        mig.requiresBackup = true → cfg.backupCommand = some c → vi.backupFails = true →
        runVersion cfg applied n vi = ([Ev.backupRun n, Ev.backupFailed n], StepRes.halt)) := by
  constructor
  · intro cfg applied n vi mig hidx hld hexp hid happ hreq hcmd
    rw [runVersion_pending cfg applied n vi mig hidx hld hexp hid happ]
    have hbs : backupStage cfg mig n vi = ([Ev.backupWarn n], true) := by
      unfold backupStage
      simp [hreq, hcmd]
    have hev : (pipeline cfg mig n vi).1 =
        [Ev.backupWarn n] ++ (thenB (pushStage n vi) (thenB (pollStage n vi)
          (thenB (upStage mig n vi) (recordStage mig n vi)))).1 := by
      unfold pipeline
      rw [hbs, thenB_of_true ([Ev.backupWarn n], true) _ rfl]
    constructor
    · rw [hev]
      exact List.mem_append_left _ (by simp)
    · obtain ⟨e, hmem, hpe⟩ := pushStage_has_push_ev n vi
      refine ⟨e, ?_, hpe⟩
      rw [hev]
      refine List.mem_append_right _ ?_
      rw [thenB_fst]
      split_ifs
      · exact List.mem_append_left _ hmem
      · exact hmem
  · intro cfg applied n vi mig c hidx hld hexp hid happ hreq hcmd hbf
    rw [runVersion_pending cfg applied n vi mig hidx hld hexp hid happ]
    have hbs : backupStage cfg mig n vi = ([Ev.backupRun n, Ev.backupFailed n], false) := by
      unfold backupStage
      simp [hreq, hcmd, hbf]
    unfold pipeline
    rw [hbs]
    rfl

theorem backup_gating_witness :
    (Ev.backupWarn ("v1") ∈ (runVersion { backupCommand := none } [] ("v1") viBackup).1 ∧
      ∃ e ∈ (runVersion { backupCommand := none } [] ("v1") viBackup).1,
        isPushStageEv e = true) ∧
    runVersion { backupCommand := some ("pg_dump") } [] ("v1") viBackupFail =
      ([Ev.backupRun ("v1"), Ev.backupFailed ("v1")], StepRes.halt) := by
  constructor
  · exact backup_gating.1 { backupCommand := none } [] ("v1") viBackup
      { id := "A", requiresBackup := true, hasUp := true }
      (by decide) (by decide) (by decide) (by decide) (by decide) (by decide) (by decide)
  · exact backup_gating.2 { backupCommand := some ("pg_dump") } [] ("v1") viBackupFail
      { id := "A", requiresBackup := true, hasUp := true } ("pg_dump")
      (by decide) (by decide) (by decide) (by decide) (by decide) (by decide) (by decide)
      (by decide)

/-- Claim C7 (amended): for every version that reaches the
script-execution stage and whose loaded definition provides an `up`
function, the runner invokes that `up` action exactly once, before the
applied record is written; a loaded definition without an `up` function
(violating the declared `Migration` interface) is nevertheless recorded
as applied without any `up` invocation (see the counterexample). -/
theorem up_invoked_once_before_record (cfg : RunConfig) (applied : List String) (n : String)
    (vi : VersionInfo) (mig : Migration)
    (hidx : vi.hasIndex = true) (hld : vi.loadThrows = false)
    (hexp : vi.defaultExport = some mig) (hid : mig.id ≠ "") (happ : mig.id ∉ applied)
    (hb : mig.requiresBackup = true → cfg.backupCommand.isSome = true → vi.backupFails = false)
    (hp : vi.hasSnapshot = true → vi.pushFails = false)
    (hu : mig.hasUp = true) (huf : vi.upFails = false) (hrf : vi.recordFails = false) :
    ∃ pre, runVersion cfg applied n vi =
        (pre ++ [Ev.upInvoke n mig.id, Ev.record mig.id n], StepRes.next (some mig.id)) ∧
      ∀ e ∈ pre, isUpEv e = false ∧ isRecordEv e = false := by
  rw [runVersion_pending cfg applied n vi mig hidx hld hexp hid happ,
    pipeline_success_parts cfg mig n vi (backupStage_ok cfg mig n vi hb) (pushStage_ok n vi hp)
      (by rw [upStage_eq mig n vi hu huf]) hrf,
    upStage_eq mig n vi hu huf]
  refine ⟨(backupStage cfg mig n vi).1 ++ (pushStage n vi).1 ++ (pollStage n vi).1, ?_, ?_⟩
  · simp [List.append_assoc]
  · intro e he
    rcases List.mem_append.mp he with h12 | h3
    · rcases List.mem_append.mp h12 with h1 | h2
      · exact ⟨(backupStage_events mig.id cfg mig n vi e h1).1,
          (backupStage_events mig.id cfg mig n vi e h1).2.1⟩
      · exact ⟨(pushStage_events mig.id n vi e h2).1, (pushStage_events mig.id n vi e h2).2.1⟩
    · exact ⟨(pollStage_events mig.id n vi e h3).1, (pollStage_events mig.id n vi e h3).2.1⟩

theorem up_invoked_once_before_record_witness :
    ∃ pre, runVersion { backupCommand := none } [] ("v1") viA =
        (pre ++ [Ev.upInvoke ("v1") ("A"), Ev.record ("A") ("v1")], StepRes.next (some ("A"))) ∧
      ∀ e ∈ pre, isUpEv e = false ∧ isRecordEv e = false :=
  up_invoked_once_before_record { backupCommand := none } [] ("v1") viA
    { id := "A", requiresBackup := false, hasUp := true }
    (by decide) (by decide) (by decide) (by decide) (by decide)
    (by intro h1 h2; decide) (by intro h1; decide) (by decide) (by decide) (by decide)

/-- Claim C7 counterexample: a version whose loaded module exports a
definition with a valid id but no `up` function is recorded as applied
although no `up` action is ever invoked, contradicting the claim that no
version is recorded applied without its `up` action having been
executed. -/
theorem record_without_up :
    runVersion { backupCommand := none } [] ("v1") viNoUp =
      ([Ev.skipPush ("v1"), Ev.record ("A") ("v1")], StepRes.next (some ("A"))) ∧
    Ev.record ("A") ("v1") ∈ (runVersion { backupCommand := none } [] ("v1") viNoUp).1 ∧
    ∀ e ∈ (runVersion { backupCommand := none } [] ("v1") viNoUp).1, isUpEv e = false := by
  decide

/-- Claim C8: a version whose loaded module has no default export, or
whose definition id is missing or empty, halts the run immediately: no
backup execution, no schema push, no polling, no `up` invocation and no
record write occur for that version (the only event is the validation
error). -/
theorem invalid_migration_halts (cfg : RunConfig) (applied : List String) (n : String)
    (vi : VersionInfo)
    (hidx : vi.hasIndex = true) (hld : vi.loadThrows = false)
    (hbad : vi.defaultExport = none ∨ ∃ mig, vi.defaultExport = some mig ∧ mig.id = "") :
    runVersion cfg applied n vi = ([Ev.invalidMigration n], StepRes.halt) := by
  unfold runVersion
  rcases hbad with h | ⟨mig, hexp, hid⟩
  · simp [hidx, hld, h]
  · simp [hidx, hld, hexp, hid]

theorem invalid_migration_halts_witness :
    runVersion { backupCommand := none } [] ("v1") viNoExport =
      ([Ev.invalidMigration ("v1")], StepRes.halt) :=
  invalid_migration_halts { backupCommand := none } [] ("v1") viNoExport
    (by decide) (by decide) (Or.inl (by decide))

/-- Claim C9: the applied set is fetched once before the loop and is not
extended when a version is recorded, so two pending versions whose loaded
definitions share the same id `X` (not applied at fetch time) both have
their `up` action invoked within the same run: the trace of the
two-version run contains exactly two `up` invocations for `X`. -/
theorem applied_set_fetched_once (cfg : RunConfig) (applied : List String)
    (info : String → VersionInfo) (n1 n2 : String) (vi1 vi2 : VersionInfo)
    (mig1 mig2 : Migration) (X : String)
    (hi1 : info n1 = vi1) (hi2 : info n2 = vi2)
    (h1idx : vi1.hasIndex = true) (h1ld : vi1.loadThrows = false)
    (h1exp : vi1.defaultExport = some mig1)
    (h2idx : vi2.hasIndex = true) (h2ld : vi2.loadThrows = false)
    (h2exp : vi2.defaultExport = some mig2)
    (hx1 : mig1.id = X) (hx2 : mig2.id = X) (hX : X ≠ "") (happ : X ∉ applied)
    (h1b : mig1.requiresBackup = true → cfg.backupCommand.isSome = true →
      vi1.backupFails = false)
    (h1p : vi1.hasSnapshot = true → vi1.pushFails = false)
    (h1u : mig1.hasUp = true) (h1uf : vi1.upFails = false) (h1rf : vi1.recordFails = false)
    (h2b : mig2.requiresBackup = true → cfg.backupCommand.isSome = true →
      vi2.backupFails = false)
    (h2p : vi2.hasSnapshot = true → vi2.pushFails = false)
    (h2u : mig2.hasUp = true) (h2uf : vi2.upFails = false) (h2rf : vi2.recordFails = false) :
    countUpId (runVersions cfg applied info [n1, n2]).1 X = 2 := by
  obtain ⟨evs1, r1, c1⟩ := runVersion_records_with_one_up cfg applied n1 vi1 mig1 X
    h1idx h1ld h1exp hx1 hX happ h1b h1p h1u h1uf h1rf
  obtain ⟨evs2, r2, c2⟩ := runVersion_records_with_one_up cfg applied n2 vi2 mig2 X
    h2idx h2ld h2exp hx2 hX happ h2b h2p h2u h2uf h2rf
  have hrun : (runVersions cfg applied info [n1, n2]).1 = evs1 ++ (evs2 ++ []) := by
    unfold runVersions
    rw [hi1, r1]
    unfold runVersions
    rw [hi2, r2]
    rfl
  rw [hrun, countUpId_append, countUpId_append, c1, c2]
  simp [countUpId]

theorem applied_set_fetched_once_witness :
    countUpId (runVersions { backupCommand := none } [] (fun _ => viX)
      [("v1"), ("v2")]).1 ("X") = 2 :=
  applied_set_fetched_once { backupCommand := none } [] (fun _ => viX) ("v1") ("v2") viX viX
    { id := "X", requiresBackup := false, hasUp := true }
    { id := "X", requiresBackup := false, hasUp := true } ("X")
    rfl rfl (by decide) (by decide) (by decide) (by decide) (by decide) (by decide)
    (by decide) (by decide) (by decide) (by decide)
    (by intro h1 h2; decide) (by intro h1; decide) (by decide) (by decide) (by decide)
    (by intro h1 h2; decide) (by intro h1; decide) (by decide) (by decide) (by decide)

/-! ## Claims about discovery -/

/-- Claim C3: discovery sorts version directories by the integer parsed
from the name after the leading v, ascending numerically: every listing
order of directories v2, v10, v1 is processed as v1, v2, v10. -/
theorem discovery_numeric_order (l : List DirEntry)
    (hl : l.Perm [{ name := "v2", isDir := true }, { name := "v10", isDir := true },
      { name := "v1", isDir := true }]) :
    discoverVersions l = ["v1", "v2", "v10"] := by
  have hmem : l ∈ List.permutations' [({ name := "v2", isDir := true } : DirEntry),
      { name := "v10", isDir := true }, { name := "v1", isDir := true }] :=
    List.mem_permutations'.mpr hl
  clear hl
  revert l
  decide

theorem discovery_numeric_order_witness :
    discoverVersions [{ name := "v10", isDir := true }, { name := "v1", isDir := true },
      { name := "v2", isDir := true }] = ["v1", "v2", "v10"] :=
  discovery_numeric_order _ (by decide)

/-- Claim C10: discovery keeps every directory whose name starts with v,
not only names of the form v followed by a decimal integer: such an entry
is still in the processed list; for a non-numeric tail, the parsed
sequence key is NaN (`none`) and the comparator returns NaN (`none`) in
both argument orders, so only membership, not position, is determined by
the numeric keys. -/
theorem v_dirs_all_processed :
    (∀ (entries : List DirEntry) (e : DirEntry), e ∈ entries → e.isDir = true →
        startsWithChar 'v' e.name = true → e.name ∈ discoverVersions entries) ∧
    seqKey ("vdata") = none ∧
    seqCompare ("vdata") ("v2") = none ∧ seqCompare ("v2") ("vdata") = none := by
  refine ⟨?_, by decide, by decide, by decide⟩
  intro entries e he hdir hv
  unfold discoverVersions
  rw [(sortVersionNames_perm _).mem_iff]
  exact List.mem_map.mpr ⟨e, List.mem_filter.mpr ⟨he, by simp [hv, hdir]⟩, rfl⟩

theorem v_dirs_all_processed_witness :
    ("vdata" : String) ∈ discoverVersions [{ name := "vdata", isDir := true },
      { name := "v1", isDir := true }] :=
  v_dirs_all_processed.1 [{ name := "vdata", isDir := true }, { name := "v1", isDir := true }]
    { name := "vdata", isDir := true } (by decide) (by decide) (by decide)

/-! ## Claims about the poller -/

theorem countSleep_append (l1 l2 : List WEv) :
    countSleep (l1 ++ l2) = countSleep l1 + countSleep l2 := by
  unfold countSleep
  simp [List.filter_append]

/-- Claim C4: in the poller, a table with no resolvable parent database
identifier is skipped with a warning and never queried while the
remaining tables are still processed; a query that fails with the
server-side error code 500 ends polling for that one table (no retry, no
sleep, remaining tables still processed); any other query error is
retried after the same 2000 ms sleep. -/
theorem poller_error_handling :
    (∀ (t : TableEntry) (oracle : List QueryRes) (rest : List (TableEntry × List QueryRes)),
        resolvableDb t.databaseId = false →
        waitForAttributes ((t, oracle) :: rest) =
          Option.map (fun evs2 => WEv.warnNoDb t.id :: evs2) (waitForAttributes rest)) ∧
    (∀ (tid : String) (rest : List QueryRes),
        pollTable tid (QueryRes.err 500 :: rest) =
          some [WEv.tquery tid, WEv.twarn500 tid]) ∧
    (∀ (t : TableEntry) (oracle : List QueryRes) (rest : List (TableEntry × List QueryRes)),
        resolvableDb t.databaseId = true →
        waitForAttributes ((t, QueryRes.err 500 :: oracle) :: rest) =
          Option.map (fun evs2 => WEv.tquery t.id :: WEv.twarn500 t.id :: evs2)
            (waitForAttributes rest)) ∧
    (∀ (tid : String) (c : Int) (rest : List QueryRes), c ≠ 500 →
        pollTable tid (QueryRes.err c :: rest) =
          Option.map
            (fun evs => WEv.tquery tid :: WEv.twarnRetry tid :: WEv.tsleep tid 2000 :: evs)
            (pollTable tid rest)) := by
  refine ⟨?_, ?_, ?_, ?_⟩
  · intro t oracle rest h
    cases hw : waitForAttributes rest with
    | none =>
      unfold waitForAttributes
      rw [hw]
      simp [h]
    | some evs2 =>
      unfold waitForAttributes
      rw [hw]
      simp [h]
  · intro tid rest
    unfold pollTable
    simp
  · intro t oracle rest h
    cases hw : waitForAttributes rest with
    | none =>
      unfold waitForAttributes
      rw [hw]
      unfold pollTable
      simp [h]
    | some evs2 =>
      unfold waitForAttributes
      rw [hw]
      unfold pollTable
      simp [h]
  · intro tid c rest hc
    cases hp : pollTable tid rest with
    | none =>
      unfold pollTable
      rw [hp]
      simp [hc]
    | some evs =>
      unfold pollTable
      rw [hp]
      simp [hc]

theorem poller_error_handling_witness :
    waitForAttributes [({ id := "t1", name := "T1", databaseId := none }, [])] =
      some [WEv.warnNoDb ("t1")] ∧
    pollTable ("t1") [QueryRes.err 500] = some [WEv.tquery ("t1"), WEv.twarn500 ("t1")] ∧
    waitForAttributes [({ id := "t1", name := "T1", databaseId := some ("db") },
      [QueryRes.err 500])] = some [WEv.tquery ("t1"), WEv.twarn500 ("t1")] ∧
    pollTable ("t1") [QueryRes.err 404, QueryRes.ok [("available")]] =
      some [WEv.tquery ("t1"), WEv.twarnRetry ("t1"), WEv.tsleep ("t1") 2000,
        WEv.tquery ("t1")] := by
  refine ⟨?_, ?_, ?_, ?_⟩
  · rw [poller_error_handling.1 { id := "t1", name := "T1", databaseId := none } [] []
      (by decide)]
    decide
  · exact poller_error_handling.2.1 ("t1") []
  · rw [poller_error_handling.2.2.1 { id := "t1", name := "T1", databaseId := some ("db") }
      [] [] (by decide)]
    decide
  · rw [poller_error_handling.2.2.2 ("t1") 404 [QueryRes.ok [("available")]] (by decide)]
    decide

/-- Claim C5: if every table reports all of its attributes available on
the first query, the poller returns without sleeping; for a table with
exactly one pending attribute that becomes available on the second
query, the poller returns after exactly one 2000 ms sleep interval. -/
theorem poller_termination :
    (∀ (tbls : List (TableEntry × List QueryRes)),
        (∀ p ∈ tbls, ∃ sts rest, p.2 = QueryRes.ok sts :: rest ∧ pendingOf sts = []) →
        ∃ evs, waitForAttributes tbls = some evs ∧ countSleep evs = 0) ∧
    (∀ (t : TableEntry) (sts1 sts2 : List String),
        resolvableDb t.databaseId = true →
        (pendingOf sts1).length = 1 → pendingOf sts2 = [] →
        waitForAttributes [(t, [QueryRes.ok sts1, QueryRes.ok sts2])] =
          some [WEv.tquery t.id, WEv.tsleep t.id 2000, WEv.tquery t.id] ∧
        countSleep [WEv.tquery t.id, WEv.tsleep t.id 2000, WEv.tquery t.id] = 1) := by
  constructor
  · intro tbls
    induction tbls with
    | nil => intro _; exact ⟨[], rfl, rfl⟩
    | cons p rest ih =>
      intro h
      obtain ⟨evs2, hrest, hc2⟩ := ih (fun q hq => h q (List.mem_cons_of_mem _ hq))
      obtain ⟨sts, orest, hp2, hpend⟩ := h p (List.mem_cons_self _ _)
      cases p with
      | mk t oracle =>
        by_cases hr : resolvableDb t.databaseId
        · have hpoll : pollTable t.id oracle = some [WEv.tquery t.id] := by
            rw [show oracle = QueryRes.ok sts :: orest from hp2]
            unfold pollTable
            simp [hpend]
          refine ⟨[WEv.tquery t.id] ++ evs2, ?_, ?_⟩
          · unfold waitForAttributes
            rw [hpoll, hrest]
            simp [hr]
          · rw [countSleep_append, hc2]
            rfl
        · refine ⟨WEv.warnNoDb t.id :: evs2, ?_, ?_⟩
          · unfold waitForAttributes
            rw [hrest]
            simp [hr]
          · unfold countSleep at hc2 ⊢
            simpa [isSleepEv] using hc2
  · intro t sts1 sts2 hr h1 h2
    have hne : ¬pendingOf sts1 = [] := by
      intro hcon
      rw [hcon] at h1
      simp at h1
    constructor
    · have hpoll2 : pollTable t.id [QueryRes.ok sts2] = some [WEv.tquery t.id] := by
        unfold pollTable
        simp [h2]
      have hpoll1 : pollTable t.id [QueryRes.ok sts1, QueryRes.ok sts2] =
          some [WEv.tquery t.id, WEv.tsleep t.id 2000, WEv.tquery t.id] := by
        unfold pollTable
        rw [hpoll2]
        simp [hne]
      have hnil : waitForAttributes [] = some [] := rfl
      unfold waitForAttributes
      rw [hpoll1, hnil]
      simp [hr]
    · rfl

theorem poller_termination_witness :
    (∃ evs, waitForAttributes [({ id := "t1", name := "T1", databaseId := some ("db") },
        [QueryRes.ok [("available"), ("available")]])] = some evs ∧ countSleep evs = 0) ∧
    waitForAttributes [({ id := "t1", name := "T1", databaseId := some ("db") },
        [QueryRes.ok [("processing")], QueryRes.ok [("available")]])] =
      some [WEv.tquery ("t1"), WEv.tsleep ("t1") 2000, WEv.tquery ("t1")] := by
  constructor
  · exact poller_termination.1 [({ id := "t1", name := "T1", databaseId := some ("db") },
      [QueryRes.ok [("available"), ("available")]])]
      (by intro p hp; simp at hp; subst hp; exact ⟨[("available"), ("available")], [],
        rfl, by decide⟩)
  · exact (poller_termination.2 { id := "t1", name := "T1", databaseId := some ("db") }
      [("processing")] [("available")] (by decide) (by decide) (by decide)).1

/-! ## Claims about the push adapter -/

/-- A rewrite oracle on which `JSON.parse` always throws. -/
def rwFail : String → Option String := fun _ => none

/-- A rewrite oracle that parses and serializes unchanged. -/
def rwId : String → Option String := fun s => some s

/-- A push oracle on which every resource category succeeds. -/
def pushOkAll : String → Bool := fun _ => true

/-- The initial filesystem of the counterexample: a root working
snapshot exists, no stale backup, and the version snapshot does not
parse. -/
def fsOrig : SnapshotFS := { root := some ("orig"), bak := none, snap := some ("notjson") }

/-- Claim C2 (amended): every invocation of `pushSnapshot` leaves the
project-root working snapshot file byte-identical to its content before
the call (or absent, if absent before), whether the call returns or
throws; and the temporary backup file is removed afterwards provided the
call does not throw between taking the backup and entering the push
phase, i.e. provided the snapshot content parses whenever both the
snapshot and a pre-existing root file are present.  A parse throw inside
that window leaves the backup file behind (see the counterexample). -/
theorem pushSnapshot_restores_root (rewrite : String → Option String)
    (pushOk : String → Bool) (fs : SnapshotFS) (hbak : fs.bak = none) :
    (pushSnapshot rewrite pushOk fs).2.root = fs.root ∧
    ((∀ c, fs.snap = some c → fs.root ≠ none → (rewrite c).isSome = true) →
      (pushSnapshot rewrite pushOk fs).2.bak = none) := by
  cases fs with
  | mk root bak snap =>
    dsimp only at hbak
    subst hbak
    cases snap with
    | none => exact ⟨rfl, fun _ => rfl⟩
    | some c =>
      cases root with
      | none =>
        cases hrw : rewrite c with
        | none => simp [pushSnapshot, hrw]
        | some nc =>
          by_cases hok : pushForAll pushOk pushResources
          · simp [pushSnapshot, hrw, hok]
          · simp [pushSnapshot, hrw, hok]
      | some orig =>
        cases hrw : rewrite c with
        | none =>
          refine ⟨by simp [pushSnapshot, hrw], ?_⟩
          intro h
          have := h c rfl (by simp)
          rw [hrw] at this
          simp at this
        | some nc =>
          by_cases hok : pushForAll pushOk pushResources
          · simp [pushSnapshot, hrw, hok]
          · simp [pushSnapshot, hrw, hok]

/-- The initial filesystem of the witness: root present, no stale
backup, parseable snapshot. -/
def fsParseable : SnapshotFS := { root := some ("orig"), bak := none, snap := some ("snap") }

theorem pushSnapshot_restores_root_witness :
    (pushSnapshot rwId pushOkAll fsParseable).2.root = some ("orig") ∧
    (pushSnapshot rwId pushOkAll fsParseable).2.bak = none := by
  have h := pushSnapshot_restores_root rwId pushOkAll fsParseable rfl
  exact ⟨h.1, h.2 (by intro c hc hr; cases hc; rfl)⟩

/-- Claim C2 counterexample: with a root file present and a version
snapshot whose content does not parse, `pushSnapshot` throws after
taking the backup copy but before the push phase: the root file is
still byte-identical afterwards, but the temporary backup file
`appwrite.config.json.bak` is left behind, contradicting the claim that
it is removed on every invocation. -/
theorem pushSnapshot_backup_left_behind :
    (pushSnapshot rwFail pushOkAll fsOrig).1 = false ∧
    (pushSnapshot rwFail pushOkAll fsOrig).2.root = some ("orig") ∧
    (pushSnapshot rwFail pushOkAll fsOrig).2.bak = some ("orig") ∧
    ¬(pushSnapshot rwFail pushOkAll fsOrig).2.bak = none := by
  decide

end AppwriteCtl
